import Mathlib

/-!
Verification of the bank-reconciliation frontend and of the matching engine
of the `conciliacion` repository.

The frontend sources (`frontend/src/lib/api.ts`,
`frontend/src/components/conciliacion/FiltrosMovimientos.tsx`, the
`ExecuteConciliationCard` / `EjecutarConciliacion` components and the
`MovimientoDetalle` modal) are embedded directly.  The backend matching
engine (strategy pipeline, scorer, tie-break, invoice consumption) is not
part of the available sources; its definitions below are modelled from the
specification and are marked as such in their doc comments.

Conventions: monetary amounts are currency-exact integer centavos
(1.00 = 100), confidences are integer hundredths (a confidence of 0.95 is
95), dates are integer day numbers, and the movement record merges the
TypeScript `MovimientoBancario` interface (field names, optional fields)
with the spec's `BankMovement` (typed dates and method enum), since the
persisted backend record is absent from the sources.
-/

namespace Conciliacion

/-- Movement status, from the TypeScript union
`estado: 'PENDIENTE' | 'CONCILIADO' | 'MANUAL'` in
`frontend/src/contexts/ConciliacionContext.tsx` (interface `MovimientoBancario`). -/
inductive Estado where
  | PENDIENTE
  | CONCILIADO
  | MANUAL
deriving DecidableEq

/-- Movement direction, from `tipo: 'cargo' | 'abono'`. -/
inductive Tipo where
  | cargo
  | abono
deriving DecidableEq

/-- The six matching strategies of the engine, in the documentation's naming:
Exact, Reference, Tolerance, Deferred-payment (PPD) aggregation, Weighted
heuristic, Historical pattern. -/
inductive Metodo where
  | exact
  | reference
  | tolerance
  | ppd
  | heuristic
  | historical
deriving DecidableEq

/-- Bank movement record: field names and optionality from the TypeScript
interface `MovimientoBancario`; `fecha` is an integer day number and
`metodo_conciliacion` the strategy enum, as in the spec's `BankMovement`. -/
structure MovimientoBancario where
  id : Nat
  empresa_id : Nat
  archivo_id : Nat
  fecha : Int
  concepto : String
  monto : Int
  tipo : Tipo
  referencia : Option String
  saldo : Option Int
  estado : Estado
  cfdi_uuid : Option String
  nivel_confianza : Option Nat
  metodo_conciliacion : Option Metodo
  observaciones : Option String
  created_at : String
deriving DecidableEq

/-- Invoice record, from the spec data model (§3 `InvoiceRecord`): uuid,
issue date, total, payment scheme (deferred or single payment), the amounts
of the linked payment complements when deferred, and the counterparty. -/
structure InvoiceRecord where
  uuid : String
  issueDate : Int
  total : Int
  deferred : Bool
  complementTotals : List Int
  counterpartyId : Nat
deriving DecidableEq

/-! ## Execute-reconciliation request and its defaults

From `frontend/src/types` (`ConciliacionRequest`), the initial state of the
`ExecuteConciliationCard` component (`useState({ monto: 1.0, dias: 3 })`),
the identical initial state of `EjecutarConciliacion` in
`app/subir-estado/page.tsx`, and the `.env` defaults documented in the
backend README (`CONCILIACION_TOLERANCIA_MONTO=1.00`,
`CONCILIACION_DIAS_TOLERANCIA=3`). -/

/-- The execute-reconciliation request body (TypeScript `ConciliacionRequest`). -/
structure ConciliacionRequest where
  rfc_empresa : String
  mes : Nat
  anio : Nat
  tolerancia_monto : Option Rat
  dias_tolerancia : Option Nat
  forzar_reproceso : Option Bool
deriving DecidableEq

/-- Tolerance form state of both execution components. -/
structure ToleranciasState where
  monto : Rat
  dias : Nat
deriving DecidableEq

/-- Initial tolerance state: `useState({ monto: 1.0, dias: 3 })`, identical in
`ExecuteConciliationCard` and in `EjecutarConciliacion`. -/
def initialTolerancias : ToleranciasState := { monto := 1, dias := 3 }

/-- Documented system configuration default `CONCILIACION_TOLERANCIA_MONTO=1.00`. -/
def CONCILIACION_TOLERANCIA_MONTO : Rat := 1

/-- Documented system configuration default `CONCILIACION_DIAS_TOLERANCIA=3`. -/
def CONCILIACION_DIAS_TOLERANCIA : Nat := 3

/-- Request construction in `executeInternal`: the form state is copied into
the request fields, the force flag into `forzar_reproceso`. -/
def buildConciliacionRequest (rfc : String) (mes anio : Nat)
    (t : ToleranciasState) (forzarReproceso : Bool) : ConciliacionRequest :=
  { rfc_empresa := rfc
    mes := mes
    anio := anio
    tolerancia_monto := some t.monto
    dias_tolerancia := some t.dias
    forzar_reproceso := some forzarReproceso }

/-! ## Execute flow and the run-scope conflict (claim C1)

The client side is `executeInternal` in `ExecuteConciliationCard` and in
`EjecutarConciliacion`: the button issues the request with
`forzar_reproceso = false`; on an HTTP 409 response the user is asked with
`window.confirm`, and only a positive answer triggers
`executeInternal(true)`. -/

/-- Outcome of the execute-reconciliation endpoint as seen by the client:
success, the distinguished 409 conflict, or any other (generic) error. -/
inductive ExecResult where
  | ok
  | conflict409
  | genericError
deriving DecidableEq

/-- Modelled from the spec: the backend execute endpoint is not in the
available sources.  Per §5 and §7(c), starting a run while one exists for
the same (company, month, year) scope fails fast with a distinguishable
conflict signal unless the force flag is set. -/
def backendExecute (existingRun : Bool) (forzarReproceso : Bool) : ExecResult :=
  if existingRun && !forzarReproceso then ExecResult.conflict409 else ExecResult.ok

/-- A forced retry issued by `executeInternal(true)` after user confirmation. -/
def executeForced (existingRun : Bool) : Bool × ExecResult :=
  (true, backendExecute existingRun true)

/-- The request trace of `executeInternal(false)` against `backendExecute`:
each element is (force flag sent, backend answer).  On a 409 the user is
asked to confirm; only then is the forced request issued. -/
def executeFlow (existingRun : Bool) (userConfirms : Bool) :
    List (Bool × ExecResult) :=
  let res := backendExecute existingRun false
  if res = ExecResult.conflict409 then
    if userConfirms then (false, res) :: [executeForced existingRun]
    else [(false, res)]
  else [(false, res)]

/-! ## Movement filters (claim C9)

From `FiltrosMovimientos.tsx`: the filter state has seven string fields;
`handleInputChange` updates one field and emits the entries whose value is
not the empty string; `limpiarFiltros` resets the state and emits `{}`. -/

/-- Filter state of `FiltrosMovimientos` (`useState({ concepto: '', ... })`). -/
structure Filtros where
  concepto : String
  estado : String
  tipo : String
  fecha_inicio : String
  fecha_fin : String
  monto_min : String
  monto_max : String
deriving DecidableEq

/-- The all-empty filter state (initial state, and the state set by
`limpiarFiltros`). -/
def filtrosVacios : Filtros :=
  { concepto := "", estado := "", tipo := "", fecha_inicio := "",
    fecha_fin := "", monto_min := "", monto_max := "" }

/-- The entry list of the filter object, in declaration order. -/
def Filtros.entries (f : Filtros) : List (String × String) :=
  [("concepto", f.concepto), ("estado", f.estado), ("tipo", f.tipo),
   ("fecha_inicio", f.fecha_inicio), ("fecha_fin", f.fecha_fin),
   ("monto_min", f.monto_min), ("monto_max", f.monto_max)]

/-- The computed-key update `{ ...filtros, [campo]: valor }`; the component
only ever passes the seven field names, any other key leaves the record
unchanged. -/
def setCampo (f : Filtros) (campo valor : String) : Filtros :=
  if campo = "concepto" then { f with concepto := valor }
  else if campo = "estado" then { f with estado := valor }
  else if campo = "tipo" then { f with tipo := valor }
  else if campo = "fecha_inicio" then { f with fecha_inicio := valor }
  else if campo = "fecha_fin" then { f with fecha_fin := valor }
  else if campo = "monto_min" then { f with monto_min := valor }
  else if campo = "monto_max" then { f with monto_max := valor }
  else f

/-- Cleanup `Object.entries(...).filter(([, value]) => value !== '')`. -/
def limpiarValores (f : Filtros) : List (String × String) :=
  f.entries.filter (fun kv => kv.2 ≠ "")

/-- Handler `handleInputChange`: new state and the filter map passed to
`onFiltrosChange`. -/
def handleInputChange (f : Filtros) (campo valor : String) :
    Filtros × List (String × String) :=
  let nuevos := setCampo f campo valor
  (nuevos, limpiarValores nuevos)

/-- Handler `limpiarFiltros`: resets the state and emits the empty map. -/
def limpiarFiltros : Filtros × List (String × String) :=
  (filtrosVacios, [])

/-! ## Movement detail modal (claim C10)

From `MovimientoDetalle`: `if (!movimiento) return null;` guards the whole
render, and the balance cell renders the formatted number only when
`movimiento.saldo !== null`, the placeholder `No disponible` otherwise. -/

/-- Deterministic stand-in for `toLocaleString('es-MX', ...)`: the rendered
money text for a known amount in centavos. -/
def formatMoney (cents : Int) : String := "$" ++ toString cents

/-- The text fragments of the rendered detail view that depend on optional
fields of the movement. -/
structure DetalleView where
  idText : String
  montoText : String
  saldoText : String
deriving DecidableEq

/-- Component `MovimientoDetalle` as a function of its `movimiento` prop: `none`
(rendering nothing) when the prop is null, otherwise the rendered view,
with the `saldo` branch `movimiento.saldo !== null ? ... : 'No disponible'`. -/
def movimientoDetalle (movimiento : Option MovimientoBancario) : Option DetalleView :=
  match movimiento with
  | none => none
  | some m =>
      some { idText := "#" ++ toString m.id
             montoText := formatMoney m.monto
             saldoText := match m.saldo with
               | some s => formatMoney s
               | none => "No disponible" }

/-! ## The matching engine

Modelled from the spec: the backend strategy pipeline, scorer/tie-break and
invoice consumption (§4.3–§4.4, §5) are not in the available sources; only
their documentation (strategy list and confidence levels in the backend
README) and the frontend consumers are.  The definitions below follow the
spec's words; where the spec leaves a formula open (linear scaling of the
tolerance confidence, §9's open questions on the text-similarity metric)
a concrete deterministic choice is made and documented. -/

/-- Engine configuration: the amount and date tolerance windows. -/
structure ConciliacionConfig where
  toleranceAmount : Int
  toleranceDays : Int
deriving DecidableEq

/-- Character-list version of `startsWith` over arbitrary lists. -/
def listStartsWith : List Char → List Char → Bool
  | [], _ => true
  | _ :: _, [] => false
  | a :: as, b :: bs => a = b && listStartsWith as bs

/-- Whether `pat` occurs as a contiguous run inside the text. -/
def listContains (pat : List Char) : List Char → Bool
  | [] => listStartsWith pat []
  | c :: rest => listStartsWith pat (c :: rest) || listContains pat rest

/-- Substring test used for reference/token matching. -/
def substrOf (tok s : String) : Bool := listContains tok.toList s.toList

/-- The free text a movement offers for reference matching: its bank
reference (when present) and its concept. -/
def refText (m : MovimientoBancario) : String :=
  (m.referencia.getD "") ++ " " ++ m.concepto

/-- Whitespace tokens of a text, deduplicated. -/
def textTokens (s : String) : List String :=
  ((s.splitOn " ").filter (fun t => t ≠ "")).eraseDups

/-- Modelled from the spec: §9 leaves the `similitud_concepto` metric open
and suggests a token-overlap ratio; this is the ratio of shared tokens to
the size of the token union, in hundredths. -/
def tokenOverlap (a b : String) : Nat :=
  let ta := textTokens a
  let tb := textTokens b
  let united := (ta ++ tb).eraseDups
  (100 * (ta.filter (fun t => tb.contains t)).length) / max 1 united.length

/-- A candidate match produced by a strategy, carrying the four tie-break
keys: confidence, absolute amount difference, absolute date difference and
the invoice issue date. -/
structure Candidate where
  uuid : String
  confidence : Nat
  amountDiff : Int
  daysDiff : Int
  issueDate : Int
deriving DecidableEq

/-- Builds the candidate for an invoice at a given confidence. -/
def mkCand (m : MovimientoBancario) (inv : InvoiceRecord) (conf : Nat) : Candidate :=
  { uuid := inv.uuid
    confidence := conf
    amountDiff := |m.monto - inv.total|
    daysDiff := |m.fecha - inv.issueDate|
    issueDate := inv.issueDate }

/-- Sums of the nonempty leading segments of a list. -/
def leadTotals : List Int → List Int
  | [] => []
  | x :: xs => x :: (leadTotals xs).map (fun s => x + s)

/-- Sums of all nonempty contiguous slices of a list (the bounded
subset-sum choice of §9 for deferred-payment aggregation: contiguous
chronological complement subsets). -/
def sliceTotals : List Int → List Int
  | [] => []
  | x :: xs => leadTotals (x :: xs) ++ sliceTotals xs

/-- Strategy 1, Exact: amount equal (currency-exact) and
`|dateDiff| ≤ toleranceDays`; confidence 0.95 (95 hundredths). -/
def stratExact (cfg : ConciliacionConfig) (m : MovimientoBancario)
    (invs : List InvoiceRecord) : List Candidate :=
  invs.filterMap (fun inv =>
    if inv.total = m.monto ∧ |m.fecha - inv.issueDate| ≤ cfg.toleranceDays
    then some (mkCand m inv 95) else none)

/-- Strategy 2, Reference: the invoice UUID token occurs as a substring of
the movement reference or concept; confidence 0.90. -/
def stratReference (m : MovimientoBancario)
    (invs : List InvoiceRecord) : List Candidate :=
  invs.filterMap (fun inv =>
    if substrOf inv.uuid (refText m)
    then some (mkCand m inv 90) else none)

/-- Linear penalty of a deviation against its tolerance, in hundredths of
the base confidence (0 at a perfect match, the full base at the window's
edge). -/
def linPenalty (base diff tol : Int) : Int :=
  if tol = 0 then 0 else (base * diff) / tol

/-- Strategy 3, Tolerance: `|amountDiff| ≤ toleranceAmount` and
`|dateDiff| ≤ toleranceDays`; confidence 0.80 (80 hundredths) scaled down
linearly by the larger normalized amount/date deviation (the concrete
linear form chosen for the spec's open formula). -/
def stratTolerance (cfg : ConciliacionConfig) (m : MovimientoBancario)
    (invs : List InvoiceRecord) : List Candidate :=
  invs.filterMap (fun inv =>
    if |m.monto - inv.total| ≤ cfg.toleranceAmount ∧
       |m.fecha - inv.issueDate| ≤ cfg.toleranceDays
    then
      some (mkCand m inv
        (80 - max (linPenalty 80 |m.monto - inv.total| cfg.toleranceAmount)
                  (linPenalty 80 |m.fecha - inv.issueDate| cfg.toleranceDays)).toNat)
    else none)

/-- Strategy 4, Deferred-payment aggregation: some contiguous subset of the
complement amounts of a deferred invoice sums to the movement amount within
`toleranceAmount`; confidence 0.90. -/
def stratPpd (cfg : ConciliacionConfig) (m : MovimientoBancario)
    (invs : List InvoiceRecord) : List Candidate :=
  invs.filterMap (fun inv =>
    if inv.deferred ∧
       (sliceTotals inv.complementTotals).any (fun s => |s - m.monto| ≤ cfg.toleranceAmount)
    then some (mkCand m inv 90) else none)

/-- Closeness of a difference on a tolerance scale, in hundredths
(100 at a perfect match, 0 beyond the scaled window). -/
def closeness (diff tol : Int) : Int :=
  max 0 (100 - (100 * diff) / (tol + 1))

/-- Strategy 5, Weighted heuristic: the weighted sum (40% amount closeness,
30% date closeness, 30% concept token overlap) exceeds 0.85 (85
hundredths); confidence 0.85.  The weights and the closeness scale are the
documented deterministic choice for the spec's open formula. -/
def stratHeuristic (cfg : ConciliacionConfig) (m : MovimientoBancario)
    (invs : List InvoiceRecord) : List Candidate :=
  invs.filterMap (fun inv =>
    let score := (40 * closeness |m.monto - inv.total| cfg.toleranceAmount
               + 30 * closeness |m.fecha - inv.issueDate| cfg.toleranceDays
               + 30 * (tokenOverlap m.concepto inv.uuid : Int)) / 100
    if 85 < score
    then some (mkCand m inv 85) else none)

/-- A remembered manual-reconciliation pattern: the reference pattern and
the counterparty it was reconciled against. -/
structure HistPattern where
  pattern : String
  counterpartyId : Nat
deriving DecidableEq

/-- Strategy 6, Historical pattern: some prior MANUAL reconciliation for
the same counterparty has a reference pattern occurring in the movement's
reference text; confidence 0.70. -/
def stratHistorical (hist : List HistPattern) (m : MovimientoBancario)
    (invs : List InvoiceRecord) : List Candidate :=
  invs.filterMap (fun inv =>
    if hist.any (fun h => h.counterpartyId = inv.counterpartyId &&
                          substrOf h.pattern (refText m))
    then some (mkCand m inv 70) else none)

/-- The fixed priority order of the six strategies (§4.3). -/
def strategyOrder : List Metodo :=
  [Metodo.exact, Metodo.reference, Metodo.tolerance,
   Metodo.ppd, Metodo.heuristic, Metodo.historical]

/-- Per-strategy acceptance threshold in hundredths (§4.3 confidence
column: 0.95, 0.90, 0.80, 0.90, 0.85, 0.70; no single global threshold,
§4.4). -/
def stratThreshold : Metodo → Nat
  | Metodo.exact => 95
  | Metodo.reference => 90
  | Metodo.tolerance => 80
  | Metodo.ppd => 90
  | Metodo.heuristic => 85
  | Metodo.historical => 70

/-- Candidate evaluation of one strategy over the available invoices. -/
def evalStrategy (cfg : ConciliacionConfig) (hist : List HistPattern)
    (meth : Metodo) (m : MovimientoBancario)
    (invs : List InvoiceRecord) : List Candidate :=
  match meth with
  | Metodo.exact => stratExact cfg m invs
  | Metodo.reference => stratReference m invs
  | Metodo.tolerance => stratTolerance cfg m invs
  | Metodo.ppd => stratPpd cfg m invs
  | Metodo.heuristic => stratHeuristic cfg m invs
  | Metodo.historical => stratHistorical hist m invs

/-- Four-level tie-break (§4.3): higher confidence, then smaller absolute
amount difference, then smaller absolute date difference, then earlier
invoice issue date. -/
def Candidate.beats (a b : Candidate) : Bool :=
  if b.confidence < a.confidence then true
  else if a.confidence < b.confidence then false
  else if a.amountDiff < b.amountDiff then true
  else if b.amountDiff < a.amountDiff then false
  else if a.daysDiff < b.daysDiff then true
  else if b.daysDiff < a.daysDiff then false
  else decide (a.issueDate < b.issueDate)

/-- One step of the best-candidate fold: the incoming candidate replaces
the current best only when it strictly beats it, so on a full tie the
earlier candidate is kept. -/
def pickStep (acc : Option Candidate) (c : Candidate) : Option Candidate :=
  match acc with
  | none => some c
  | some b => if c.beats b then some c else some b

/-- The best candidate of a list under the tie-break; a function of the
list. -/
def pickBest (l : List Candidate) : Option Candidate :=
  l.foldl pickStep none

/-- The four tie-break keys of a candidate packed into one lexicographically
ordered value (confidence negated, so smaller key means better candidate). -/
def Candidate.key (c : Candidate) : Lex (Int × Lex (Int × Lex (Int × Int))) :=
  toLex (-(c.confidence : Int), toLex (c.amountDiff, toLex (c.daysDiff, c.issueDate)))

/-- Insertion by the tie-break order, best first. -/
def insertCand (c : Candidate) : List Candidate → List Candidate
  | [] => [c]
  | d :: ds => if c.beats d then c :: d :: ds else d :: insertCand c ds

/-- Candidates sorted by the tie-break order, best first. -/
def sortCands (l : List Candidate) : List Candidate :=
  l.foldr insertCand []

/-- Number of suggestions retained for an unmatched movement (top-K, K=3). -/
def maxSuggestions : Nat := 3

/-- Outcome of the per-movement pipeline: an accepted match with the
strategy that produced it, or the retained suggestions. -/
inductive MatchResult where
  | accepted (meth : Metodo) (best : Candidate)
  | pending (suggestions : List Candidate)
deriving DecidableEq

/-- Whether a strategy accepts the movement against the available invoices:
its best candidate's confidence meets the strategy's own threshold. -/
def stratAccepts (cfg : ConciliacionConfig) (hist : List HistPattern)
    (meth : Metodo) (m : MovimientoBancario) (invs : List InvoiceRecord) : Bool :=
  match pickBest (evalStrategy cfg hist meth m invs) with
  | some c => stratThreshold meth ≤ c.confidence
  | none => false

/-- The strategy chain: walks the strategies in order, stopping at the
first acceptance; otherwise accumulates all candidates and retains the
top-K as suggestions. -/
def pipelineGo (cfg : ConciliacionConfig) (hist : List HistPattern)
    (m : MovimientoBancario) (invs : List InvoiceRecord) :
    List Metodo → List Candidate → MatchResult
  | [], acc => MatchResult.pending ((sortCands acc).take maxSuggestions)
  | meth :: rest, acc =>
    let cands := evalStrategy cfg hist meth m invs
    match pickBest cands with
    | some best =>
        if stratThreshold meth ≤ best.confidence
        then MatchResult.accepted meth best
        else pipelineGo cfg hist m invs rest (acc ++ cands)
    | none => pipelineGo cfg hist m invs rest (acc ++ cands)

/-- The per-movement pipeline over the full strategy order. -/
def pipeline (cfg : ConciliacionConfig) (hist : List HistPattern)
    (m : MovimientoBancario) (invs : List InvoiceRecord) : MatchResult :=
  pipelineGo cfg hist m invs strategyOrder []

/-- Acceptance (§4.4): mark the movement CONCILIADO and set the matched
invoice, the confidence and the method. -/
def applyAccept (m : MovimientoBancario) (meth : Metodo) (best : Candidate) :
    MovimientoBancario :=
  { m with estado := Estado.CONCILIADO
           cfdi_uuid := some best.uuid
           nivel_confianza := some best.confidence
           metodo_conciliacion := some meth }

/-- Per-movement step of the run: PENDING movements are matched against the
invoices not yet consumed, and an accepted invoice is claimed; CONCILIADO
and MANUAL movements are left untouched by the automatic pipeline. -/
def processMovement (cfg : ConciliacionConfig) (hist : List HistPattern)
    (invs : List InvoiceRecord) (consumed : List String)
    (m : MovimientoBancario) : MovimientoBancario × List String :=
  if m.estado = Estado.PENDIENTE then
    match pipeline cfg hist m (invs.filter fun inv => !consumed.contains inv.uuid) with
    | MatchResult.accepted meth best => (applyAccept m meth best, best.uuid :: consumed)
    | MatchResult.pending _ => (m, consumed)
  else (m, consumed)

/-- Sequential run over the movement list, threading the consumed set. -/
def runRecon (cfg : ConciliacionConfig) (hist : List HistPattern)
    (invs : List InvoiceRecord) :
    List MovimientoBancario → List String → List MovimientoBancario
  | [], _ => []
  | m :: ms, consumed =>
    (processMovement cfg hist invs consumed m).1 ::
      runRecon cfg hist invs ms (processMovement cfg hist invs consumed m).2

/-- Reset applied by `forceReprocess` (§4.6 state machine): a CONCILIADO
movement goes back to PENDING with its automatic assignment cleared; MANUAL
and PENDING movements are untouched. -/
def resetOne (m : MovimientoBancario) : MovimientoBancario :=
  if m.estado = Estado.CONCILIADO then
    { m with estado := Estado.PENDIENTE
             cfdi_uuid := none
             nivel_confianza := none
             metodo_conciliacion := none }
  else m

/-- The forced-reprocess reset over the prior run's movements. -/
def resetForReprocess (ms : List MovimientoBancario) : List MovimientoBancario :=
  ms.map resetOne

/-- Invoices already claimed before the run starts: those referenced by
movements that are not PENDING. -/
def initialConsumed (ms : List MovimientoBancario) : List String :=
  ms.filterMap (fun m =>
    if m.estado = Estado.PENDIENTE then none else m.cfdi_uuid)

/-- A full reconciliation run: apply the forced reset when requested, seed
the consumed set from the already-assigned movements, then match the
movements in order. -/
def runConciliacion (cfg : ConciliacionConfig) (hist : List HistPattern)
    (invs : List InvoiceRecord) (forceReprocess : Bool)
    (ms : List MovimientoBancario) : List MovimientoBancario :=
  let start := if forceReprocess then resetForReprocess ms else ms
  runRecon cfg hist invs start (initialConsumed start)

/-! ## `conciliacionAPI.obtenerMovimientos` response mapping (claim C8)

From `frontend/src/lib/api.ts`: the untyped axios response data is mapped
with `{ movimientos: response.data.items || [], total: response.data.total
|| 0 }`.  JavaScript values and their truthiness are embedded so the `||`
defaults are modelled exactly. -/

/-- A JavaScript value as it can appear in `response.data`. -/
inductive JsValue where
  | undef
  | jsNull
  | jsBool (b : Bool)
  | num (q : Int)
  | str (s : String)
  | arr (elems : List JsValue)
  | obj (fields : List (String × JsValue))

/-- JavaScript truthiness (NaN aside, which rationals do not model). -/
def truthy : JsValue → Bool
  | JsValue.undef => false
  | JsValue.jsNull => false
  | JsValue.jsBool b => b
  | JsValue.num q => q ≠ 0
  | JsValue.str s => s ≠ ""
  | JsValue.arr _ => true
  | JsValue.obj _ => true

/-- The value is an array. -/
def isArr : JsValue → Bool
  | JsValue.arr _ => true
  | _ => false

/-- The value is a number. -/
def isNum : JsValue → Bool
  | JsValue.num _ => true
  | _ => false

/-- Property access `v[k]`: throws (`none`) on `null`/`undefined`, yields
the field on objects and `undefined` otherwise (missing key included). -/
def getProp (v : JsValue) (k : String) : Option JsValue :=
  match v with
  | JsValue.undef => none
  | JsValue.jsNull => none
  | JsValue.obj fields =>
      some (match fields.lookup k with
            | some x => x
            | none => JsValue.undef)
  | _ => some JsValue.undef

/-- JavaScript `a || b`. -/
def jsOr (a b : JsValue) : JsValue := if truthy a then a else b

/-- The result object built by `obtenerMovimientos` from `response.data`
(`none` when the property accesses throw): the `movimientos` and `total`
fields, in that order. -/
def obtenerMovimientosMap (data : JsValue) : Option (JsValue × JsValue) :=
  match getProp data "items", getProp data "total" with
  | some items, some total =>
      some (jsOr items (JsValue.arr []), jsOr total (JsValue.num 0))
  | _, _ => none

/-- Two movements never claim the same invoice: when both are CONCILIADO
and the first carries an invoice reference, the references differ. -/
def SinReclamoDoble (a b : MovimientoBancario) : Prop :=
  a.estado = Estado.CONCILIADO → b.estado = Estado.CONCILIADO →
  a.cfdi_uuid.isSome = true → a.cfdi_uuid ≠ b.cfdi_uuid

instance (a b : MovimientoBancario) : Decidable (SinReclamoDoble a b) := by
  unfold SinReclamoDoble
  infer_instance

/-- Uniqueness of invoice claims over a whole movement list. -/
def NoDupClaims (ms : List MovimientoBancario) : Prop :=
  List.Pairwise SinReclamoDoble ms

/-! ## Sample values

Concrete inputs used to instantiate the theorems below. -/

/-- A pending movement (the spec's Exact scenario: 1500.00 on day 10). -/
def sampleMov : MovimientoBancario :=
  { id := 1, empresa_id := 1, archivo_id := 1, fecha := 10,
    concepto := "PAGO FACTURA", monto := 150000, tipo := Tipo.cargo,
    referencia := some "REF123", saldo := none, estado := Estado.PENDIENTE,
    cfdi_uuid := none, nivel_confianza := none, metodo_conciliacion := none,
    observaciones := none, created_at := "2024-02-01" }

/-- A manually reconciled movement. -/
def sampleManual : MovimientoBancario :=
  { sampleMov with id := 2, estado := Estado.MANUAL,
                   cfdi_uuid := some "MAN-001", observaciones := some "manual" }

/-- A single-payment invoice matching `sampleMov` exactly (issued day 9). -/
def sampleInv : InvoiceRecord :=
  { uuid := "AAA-111", issueDate := 9, total := 150000, deferred := false,
    complementTotals := [], counterpartyId := 7 }

/-- The default engine configuration (tolerances 1.00, i.e. 100 centavos,
and 3 days). -/
def sampleCfg : ConciliacionConfig := { toleranceAmount := 100, toleranceDays := 3 }

/-- A movement already reconciled automatically in a prior run. -/
def sampleConc : MovimientoBancario :=
  { sampleMov with id := 3, estado := Estado.CONCILIADO,
                   cfdi_uuid := some "CCC-333",
                   nivel_confianza := some 95,
                   metodo_conciliacion := some Metodo.exact }

/-- A well-shaped backend response body for the movements endpoint. -/
def sampleRespFields : List (String × JsValue) :=
  [("items", JsValue.arr [JsValue.num 1]), ("total", JsValue.num 5)]

/-! ## Tie-break order lemmas -/

/-- The boolean tie-break agrees with the strict lexicographic order on the
packed keys. -/
theorem beats_iff_lt (a b : Candidate) : a.beats b = true ↔ a.key < b.key := by
  unfold Candidate.beats Candidate.key
  rw [Prod.Lex.lt_iff, Prod.Lex.lt_iff, Prod.Lex.lt_iff]
  simp only [neg_lt_neg_iff, neg_inj, Nat.cast_lt, Nat.cast_inj, decide_eq_true_eq]
  constructor
  · intro hb
    split_ifs at hb with h1 h2 h3 h4 h5 h6
    · exact Or.inl h1
    · exact Or.inr ⟨le_antisymm (not_lt.mp h1) (not_lt.mp h2), Or.inl h3⟩
    · exact Or.inr ⟨le_antisymm (not_lt.mp h1) (not_lt.mp h2),
        Or.inr ⟨le_antisymm (not_lt.mp h4) (not_lt.mp h3), Or.inl h5⟩⟩
    · exact Or.inr ⟨le_antisymm (not_lt.mp h1) (not_lt.mp h2),
        Or.inr ⟨le_antisymm (not_lt.mp h4) (not_lt.mp h3),
          Or.inr ⟨by omega, of_decide_eq_true hb⟩⟩⟩
  · intro hlt
    split_ifs with h1 h2 h3 h4 h5 h6
    · rfl
    · exfalso
      rcases hlt with h | ⟨e1, h | ⟨e2, h | ⟨e3, h⟩⟩⟩ <;> omega
    · rfl
    · exfalso
      rcases hlt with h | ⟨e1, h | ⟨e2, h | ⟨e3, h⟩⟩⟩ <;> omega
    · rfl
    · exfalso
      rcases hlt with h | ⟨e1, h | ⟨e2, h | ⟨e3, h⟩⟩⟩ <;> omega
    · rcases hlt with h | ⟨e1, h | ⟨e2, h | ⟨e3, h⟩⟩⟩
      · exact absurd h h1
      · exact absurd h h3
      · exact absurd h h5
      · exact decide_eq_true h

/-- A candidate never beats one with an equal-or-smaller key. -/
theorem beats_eq_false_of_not_lt {a b : Candidate} (h : ¬ a.key < b.key) :
    a.beats b = false := by
  rw [Bool.eq_false_iff, Ne, beats_iff_lt]
  exact h

/-- Equivalently, `beats = false` is exactly the non-strict comparison of the keys. -/
theorem beats_eq_false_iff (a b : Candidate) :
    a.beats b = false ↔ ¬ a.key < b.key := by
  rw [Bool.eq_false_iff, Ne, beats_iff_lt]

/-- Fold invariant of the best-candidate selection: starting from `b`, the
fold returns an element of `b :: l` that nothing in `b :: l` beats. -/
theorem foldl_pickStep_spec :
    ∀ (l : List Candidate) (b : Candidate),
      ∃ c, l.foldl pickStep (some b) = some c ∧ (c = b ∨ c ∈ l) ∧
        b.beats c = false ∧ ∀ d ∈ l, d.beats c = false := by
  intro l
  induction l with
  | nil =>
      intro b
      exact ⟨b, rfl, Or.inl rfl, beats_eq_false_of_not_lt (lt_irrefl _),
        fun d hd => absurd hd (List.not_mem_nil d)⟩
  | cons x xs ih =>
      intro b
      by_cases hx : x.beats b = true
      · obtain ⟨c, hc, hmem, hxc, hall⟩ := ih x
        have hstep : (x :: xs).foldl pickStep (some b) = xs.foldl pickStep (some x) := by
          simp [List.foldl_cons, pickStep, hx]
        refine ⟨c, by rw [hstep, hc], ?_, ?_, ?_⟩
        · rcases hmem with rfl | hm
          · exact Or.inr (List.mem_cons_self _ _)
          · exact Or.inr (List.mem_cons_of_mem _ hm)
        · have h1 : x.key < b.key := (beats_iff_lt x b).mp hx
          have h2 : ¬ x.key < c.key := (beats_eq_false_iff x c).mp hxc
          exact (beats_eq_false_iff b c).mpr
            (fun hbc => h2 (lt_trans h1 hbc))
        · intro d hd
          rcases List.mem_cons.mp hd with rfl | hm
          · exact hxc
          · exact hall d hm
      · have hx2 : x.beats b = false := by
          cases h2 : x.beats b with
          | true => exact absurd h2 hx
          | false => rfl
        obtain ⟨c, hc, hmem, hbc, hall⟩ := ih b
        have hstep : (x :: xs).foldl pickStep (some b) = xs.foldl pickStep (some b) := by
          simp [List.foldl_cons, pickStep, hx2]
        refine ⟨c, by rw [hstep, hc], ?_, hbc, ?_⟩
        · rcases hmem with rfl | hm
          · exact Or.inl rfl
          · exact Or.inr (List.mem_cons_of_mem _ hm)
        · intro d hd
          rcases List.mem_cons.mp hd with rfl | hm
          · have h1 : ¬ d.key < b.key := (beats_eq_false_iff d b).mp hx2
            have h2 : ¬ b.key < c.key := (beats_eq_false_iff b c).mp hbc
            exact (beats_eq_false_iff d c).mpr
              (fun hdc => h1 (lt_of_lt_of_le hdc (not_lt.mp h2)))
          · exact hall d hm

/-- The selected best candidate is a member of the list and is beaten by no
member: the four-level tie-break picks a minimal element, deterministically. -/
theorem pickBest_spec {l : List Candidate} {c : Candidate}
    (h : pickBest l = some c) :
    c ∈ l ∧ ∀ d ∈ l, d.beats c = false := by
  cases l with
  | nil => exact absurd h (by simp [pickBest])
  | cons x xs =>
      obtain ⟨c2, hc2, hmem, hxc, hall⟩ := foldl_pickStep_spec xs x
      have hx : pickBest (x :: xs) = xs.foldl pickStep (some x) := rfl
      rw [hx, hc2] at h
      injection h with h
      subst h
      constructor
      · rcases hmem with rfl | hm
        · exact List.mem_cons_self _ _
        · exact List.mem_cons_of_mem _ hm
      · intro d hd
        rcases List.mem_cons.mp hd with rfl | hm
        · exact hxc
        · exact hall d hm

/-- Every candidate a strategy emits is built from one of the available
invoices and carries that invoice's uuid. -/
theorem evalStrategy_uuid_mem (cfg : ConciliacionConfig) (hist : List HistPattern)
    (meth : Metodo) (m : MovimientoBancario) (invs : List InvoiceRecord) :
    ∀ c ∈ evalStrategy cfg hist meth m invs, ∃ inv ∈ invs, c.uuid = inv.uuid := by
  intro c hc
  cases meth <;>
    simp only [evalStrategy, stratExact, stratReference, stratTolerance,
      stratPpd, stratHeuristic, stratHistorical] at hc <;>
    obtain ⟨inv, hinv, hf⟩ := List.mem_filterMap.mp hc <;>
    refine ⟨inv, hinv, ?_⟩ <;>
    (split at hf
     · cases hf
       rfl
     · exact absurd hf (by simp))

/-! ## Pipeline characterization -/

/-- If the strategy chain accepts, the accepting strategy is the first of
the remaining chain whose best candidate meets its own threshold, and the
recorded candidate is that strategy's tie-break winner. -/
theorem pipelineGo_accepted (cfg : ConciliacionConfig) (hist : List HistPattern)
    (m : MovimientoBancario) (invs : List InvoiceRecord) :
    ∀ (l : List Metodo) (acc : List Candidate) (meth : Metodo) (best : Candidate),
      pipelineGo cfg hist m invs l acc = MatchResult.accepted meth best →
      ∃ pre post, l = pre ++ meth :: post ∧
        (∀ x ∈ pre, stratAccepts cfg hist x m invs = false) ∧
        pickBest (evalStrategy cfg hist meth m invs) = some best ∧
        stratThreshold meth ≤ best.confidence := by
  intro l
  induction l with
  | nil =>
      intro acc meth best h
      exact absurd h (by simp [pipelineGo])
  | cons x xs ih =>
      intro acc meth best h
      cases hpick : pickBest (evalStrategy cfg hist x m invs) with
      | none =>
          simp only [pipelineGo, hpick] at h
          obtain ⟨pre, post, hsplit, hpre, hbest, hth⟩ := ih _ _ _ h
          refine ⟨x :: pre, post, by simp [hsplit], ?_, hbest, hth⟩
          intro y hy
          rcases List.mem_cons.mp hy with rfl | hm
          · simp [stratAccepts, hpick]
          · exact hpre y hm
      | some b =>
          simp only [pipelineGo, hpick] at h
          by_cases hth2 : stratThreshold x ≤ b.confidence
          · rw [if_pos hth2] at h
            injection h with h1 h2
            subst h1
            subst h2
            refine ⟨[], xs, rfl, ?_, hpick, hth2⟩
            intro y hy
            exact absurd hy (List.not_mem_nil y)
          · rw [if_neg hth2] at h
            obtain ⟨pre, post, hsplit, hpre, hbest, hth⟩ := ih _ _ _ h
            refine ⟨x :: pre, post, by simp [hsplit], ?_, hbest, hth⟩
            intro y hy
            rcases List.mem_cons.mp hy with rfl | hm
            · simp [stratAccepts, hpick, hth2]
            · exact hpre y hm

/-- If the strategy chain ends pending, no remaining strategy accepted and
at most `maxSuggestions` candidates are retained. -/
theorem pipelineGo_pending (cfg : ConciliacionConfig) (hist : List HistPattern)
    (m : MovimientoBancario) (invs : List InvoiceRecord) :
    ∀ (l : List Metodo) (acc : List Candidate) (sugg : List Candidate),
      pipelineGo cfg hist m invs l acc = MatchResult.pending sugg →
      (∀ x ∈ l, stratAccepts cfg hist x m invs = false) ∧
      sugg.length ≤ maxSuggestions := by
  intro l
  induction l with
  | nil =>
      intro acc sugg h
      simp only [pipelineGo] at h
      injection h with h1
      subst h1
      exact ⟨fun x hx => absurd hx (List.not_mem_nil x), List.length_take_le _ _⟩
  | cons x xs ih =>
      intro acc sugg h
      cases hpick : pickBest (evalStrategy cfg hist x m invs) with
      | none =>
          simp only [pipelineGo, hpick] at h
          obtain ⟨hall, hlen⟩ := ih _ _ h
          refine ⟨?_, hlen⟩
          intro y hy
          rcases List.mem_cons.mp hy with rfl | hm
          · simp [stratAccepts, hpick]
          · exact hall y hm
      | some b =>
          simp only [pipelineGo, hpick] at h
          by_cases hth2 : stratThreshold x ≤ b.confidence
          · rw [if_pos hth2] at h
            exact absurd h (by simp)
          · rw [if_neg hth2] at h
            obtain ⟨hall, hlen⟩ := ih _ _ h
            refine ⟨?_, hlen⟩
            intro y hy
            rcases List.mem_cons.mp hy with rfl | hm
            · simp [stratAccepts, hpick, hth2]
            · exact hall y hm

/-! ## Run-level lemmas -/

/-- A PENDING movement with an accepting pipeline is reconciled and its
invoice claimed. -/
theorem processMovement_eq_accepted {cfg : ConciliacionConfig}
    {hist : List HistPattern} {invs : List InvoiceRecord} {consumed : List String}
    {m : MovimientoBancario} {meth : Metodo} {best : Candidate}
    (hp : m.estado = Estado.PENDIENTE)
    (hpipe : pipeline cfg hist m (invs.filter fun inv => !consumed.contains inv.uuid) =
             MatchResult.accepted meth best) :
    processMovement cfg hist invs consumed m =
      (applyAccept m meth best, best.uuid :: consumed) := by
  unfold processMovement
  rw [if_pos hp, hpipe]

/-- A PENDING movement with a pending pipeline is left unchanged. -/
theorem processMovement_eq_pending {cfg : ConciliacionConfig}
    {hist : List HistPattern} {invs : List InvoiceRecord} {consumed : List String}
    {m : MovimientoBancario} {sugg : List Candidate}
    (hp : m.estado = Estado.PENDIENTE)
    (hpipe : pipeline cfg hist m (invs.filter fun inv => !consumed.contains inv.uuid) =
             MatchResult.pending sugg) :
    processMovement cfg hist invs consumed m = (m, consumed) := by
  unfold processMovement
  rw [if_pos hp, hpipe]

/-- A non-PENDING movement is skipped by the automatic pipeline. -/
theorem processMovement_eq_skip {cfg : ConciliacionConfig}
    {hist : List HistPattern} {invs : List InvoiceRecord} {consumed : List String}
    {m : MovimientoBancario} (hp : m.estado ≠ Estado.PENDIENTE) :
    processMovement cfg hist invs consumed m = (m, consumed) := by
  unfold processMovement
  rw [if_neg hp]

/-- Processing a movement never forgets an already-claimed invoice. -/
theorem processMovement_consumed_mono (cfg : ConciliacionConfig)
    (hist : List HistPattern) (invs : List InvoiceRecord)
    (consumed : List String) (m : MovimientoBancario) :
    consumed ⊆ (processMovement cfg hist invs consumed m).2 := by
  by_cases hp : m.estado = Estado.PENDIENTE
  · cases hpipe : pipeline cfg hist m
        (invs.filter fun inv => !consumed.contains inv.uuid) with
    | accepted meth best =>
        rw [processMovement_eq_accepted hp hpipe]
        exact List.subset_cons_self _ _
    | pending sugg =>
        rw [processMovement_eq_pending hp hpipe]
        exact fun x hx => hx
  · rw [processMovement_eq_skip hp]
    exact fun x hx => hx

/-- An accepted candidate claims an invoice of the run that was not yet
consumed. -/
theorem pipeline_accepted_uuid {cfg : ConciliacionConfig}
    {hist : List HistPattern} {m : MovimientoBancario}
    {invs : List InvoiceRecord} {consumed : List String}
    {meth : Metodo} {best : Candidate}
    (h : pipeline cfg hist m (invs.filter fun inv => !consumed.contains inv.uuid) =
         MatchResult.accepted meth best) :
    best.uuid ∉ consumed ∧ ∃ inv ∈ invs, best.uuid = inv.uuid := by
  obtain ⟨pre, post, _, _, hbest, _⟩ :=
    pipelineGo_accepted cfg hist m _ strategyOrder [] meth best h
  have hmem := (pickBest_spec hbest).1
  obtain ⟨inv, hinv, huid⟩ := evalStrategy_uuid_mem cfg hist meth m _ best hmem
  have h2 := List.mem_filter.mp hinv
  refine ⟨?_, inv, h2.1, huid⟩
  rw [huid]
  simpa using h2.2

/-- A reconciled output movement whose invoice was already claimed when the
run reached it must be an untouched input movement. -/
theorem runRecon_consumed_src (cfg : ConciliacionConfig)
    (hist : List HistPattern) (invs : List InvoiceRecord) :
    ∀ (ms : List MovimientoBancario) (consumed : List String) (u : String)
      (m2 : MovimientoBancario), u ∈ consumed →
      m2 ∈ runRecon cfg hist invs ms consumed →
      m2.estado = Estado.CONCILIADO → m2.cfdi_uuid = some u →
      ∃ m0 ∈ ms, m0.estado = Estado.CONCILIADO ∧ m0.cfdi_uuid = some u := by
  intro ms
  induction ms with
  | nil =>
      intro consumed u m2 hu hm2 hconc huuid
      simp [runRecon] at hm2
  | cons m ms ih =>
      intro consumed u m2 hu hm2 hconc huuid
      simp only [runRecon] at hm2
      rcases List.mem_cons.mp hm2 with heq | hm
      · by_cases hp : m.estado = Estado.PENDIENTE
        · cases hpipe : pipeline cfg hist m
              (invs.filter fun inv => !consumed.contains inv.uuid) with
          | accepted meth best =>
              rw [processMovement_eq_accepted hp hpipe] at heq
              exfalso
              have hnc := (pipeline_accepted_uuid hpipe).1
              have : m2.cfdi_uuid = some best.uuid := by rw [heq]; rfl
              rw [huuid] at this
              injection this with this
              rw [← this] at hnc
              exact hnc hu
          | pending sugg =>
              rw [processMovement_eq_pending hp hpipe] at heq
              rw [heq] at hconc
              rw [hp] at hconc
              exact absurd hconc (by decide)
        · rw [processMovement_eq_skip hp] at heq
          have heq2 : m2 = m := heq
          exact ⟨m, List.mem_cons_self _ _, heq2 ▸ hconc, heq2 ▸ huuid⟩
      · have hsub := processMovement_consumed_mono cfg hist invs consumed m
        obtain ⟨m0, hm0, hst, hid⟩ := ih _ u m2 (hsub hu) hm hconc huuid
        exact ⟨m0, List.mem_cons_of_mem _ hm0, hst, hid⟩

/-- Any relation holding for every pair holds pairwise on every list. -/
theorem pairwise_of_rel_total {α : Type} {R : α → α → Prop}
    (h : ∀ a b, R a b) : ∀ l : List α, List.Pairwise R l := by
  intro l
  induction l with
  | nil => exact List.Pairwise.nil
  | cons x xs ih => exact List.Pairwise.cons (fun b _ => h x b) ih

/-- The run preserves uniqueness of invoice claims, provided every
pre-existing claim is in the seeded consumed set. -/
theorem runRecon_pairwise (cfg : ConciliacionConfig) (hist : List HistPattern)
    (invs : List InvoiceRecord) :
    ∀ (ms : List MovimientoBancario) (consumed : List String),
      (∀ m ∈ ms, m.estado = Estado.CONCILIADO →
        ∀ u, m.cfdi_uuid = some u → u ∈ consumed) →
      NoDupClaims ms →
      NoDupClaims (runRecon cfg hist invs ms consumed) := by
  intro ms
  induction ms with
  | nil =>
      intro consumed h1 h2
      simp only [runRecon]
      exact List.Pairwise.nil
  | cons m ms ih =>
      intro consumed h1 h2
      obtain ⟨hrel, hpair⟩ := List.pairwise_cons.mp h2
      simp only [runRecon]
      refine List.pairwise_cons.mpr ⟨?_, ?_⟩
      · intro b hb
        intro hconc1 hconc2 hsome
        obtain ⟨u, hu⟩ := Option.isSome_iff_exists.mp hsome
        rw [hu]
        intro heq
        have hbu : b.cfdi_uuid = some u := by rw [← heq]
        by_cases hp : m.estado = Estado.PENDIENTE
        · cases hpipe : pipeline cfg hist m
              (invs.filter fun inv => !consumed.contains inv.uuid) with
          | accepted meth best =>
              rw [processMovement_eq_accepted hp hpipe] at hb hu
              have hub : u = best.uuid := by
                have : (applyAccept m meth best).cfdi_uuid = some best.uuid := rfl
                rw [this] at hu
                injection hu with hu
                exact hu.symm
              have humem : u ∈ best.uuid :: consumed := by rw [hub]; exact List.mem_cons_self _ _
              obtain ⟨m0, hm0, hst, hid⟩ :=
                runRecon_consumed_src cfg hist invs ms _ u b humem hb hconc2 hbu
              have := h1 m0 (List.mem_cons_of_mem _ hm0) hst u hid
              rw [hub] at this
              exact (pipeline_accepted_uuid hpipe).1 this
          | pending sugg =>
              rw [processMovement_eq_pending hp hpipe] at hconc1
              rw [hp] at hconc1
              exact absurd hconc1 (by decide)
        · rw [processMovement_eq_skip hp] at hb hu hconc1
          have humem : u ∈ consumed := h1 m (List.mem_cons_self _ _) hconc1 u hu
          obtain ⟨m0, hm0, hst, hid⟩ :=
            runRecon_consumed_src cfg hist invs ms _ u b humem hb hconc2 hbu
          have hsd := hrel m0 hm0
          have := hsd hconc1 hst (by rw [hu]; rfl)
          rw [hu, hid] at this
          exact this rfl
      · refine ih _ ?_ hpair
        intro m2 hm2 hc2 u hu2
        exact processMovement_consumed_mono cfg hist invs consumed m
          (h1 m2 (List.mem_cons_of_mem _ hm2) hc2 u hu2)

/-! ## Claim theorems -/

/-- C1: an execute request without the force flag against a scope that
already has a run yields the distinguished 409 conflict (not the generic
error); the client's first request never carries the force flag, and the
forced retry is issued exactly when the user confirms the dialog — never
automatically. -/
theorem claim_C1 (userConfirms : Bool) :
    backendExecute true false = ExecResult.conflict409 ∧
    backendExecute false false = ExecResult.ok ∧
    ExecResult.conflict409 ≠ ExecResult.genericError ∧
    executeFlow true userConfirms =
      (if userConfirms then
        [(false, ExecResult.conflict409), (true, ExecResult.ok)]
      else [(false, ExecResult.conflict409)]) ∧
    executeFlow false userConfirms = [(false, ExecResult.ok)] := by
  cases userConfirms <;> exact ⟨rfl, rfl, by decide, rfl, rfl⟩

/-- C7: with no caller override, the execution form state and the documented
system configuration both carry toleranceAmount 1.00 and toleranceDays 3,
and the issued request copies exactly those values. -/
theorem claim_C7 (rfc : String) (mes anio : Nat) (forzar : Bool) :
    initialTolerancias.monto = 1 ∧ initialTolerancias.dias = 3 ∧
    CONCILIACION_TOLERANCIA_MONTO = 1 ∧ CONCILIACION_DIAS_TOLERANCIA = 3 ∧
    (buildConciliacionRequest rfc mes anio initialTolerancias forzar).tolerancia_monto =
      some 1 ∧
    (buildConciliacionRequest rfc mes anio initialTolerancias forzar).dias_tolerancia =
      some 3 :=
  ⟨rfl, rfl, rfl, rfl, rfl, rfl⟩

/-- C9: every filter map emitted by `handleInputChange` contains only
entries with non-empty string values, and clearing the filters emits the
empty map. -/
theorem claim_C9 (f : Filtros) (campo valor : String) :
    ((handleInputChange f campo valor).2.all fun kv => kv.2 != "") = true ∧
    limpiarFiltros.2 = [] := by
  refine ⟨?_, rfl⟩
  rw [List.all_eq_true]
  intro kv hkv
  have h := (List.mem_filter.mp hkv).2
  simpa using h

/-- C10: the movement-detail view renders nothing when the movement prop is
null, renders the placeholder text when `saldo` is null, and formats the
number when it is present. -/
theorem claim_C10 (m : MovimientoBancario) :
    movimientoDetalle none = none ∧
    (m.saldo = none →
      ∃ v, movimientoDetalle (some m) = some v ∧ v.saldoText = "No disponible") ∧
    (∀ s, m.saldo = some s →
      ∃ v, movimientoDetalle (some m) = some v ∧ v.saldoText = formatMoney s) := by
  refine ⟨rfl, ?_, ?_⟩
  · intro hnone
    exact ⟨_, rfl, by simp [movimientoDetalle, hnone]⟩
  · intro s hs
    exact ⟨_, rfl, by simp [movimientoDetalle, hs]⟩

/-- C10 witness: the saldo-null branch at a concrete movement. -/
theorem claim_C10_witness :
    sampleMov.saldo = none ∧
    ∃ v, movimientoDetalle (some sampleMov) = some v ∧
      v.saldoText = "No disponible" :=
  ⟨rfl, (claim_C10 sampleMov).2.1 rfl⟩

/-- A reset movement is never CONCILIADO. -/
theorem resetOne_not_conciliado (m : MovimientoBancario) :
    (resetOne m).estado ≠ Estado.CONCILIADO := by
  unfold resetOne
  split_ifs with h
  · simp
  · simpa using h

/-- C2: over any run, no two distinct movements whose final status is
CONCILIADO claim the same invoice, provided the input run already satisfied
the same uniqueness (spec-modelled engine: seeded consumed set plus
per-movement claim of the accepted invoice). -/
theorem claim_C2 (cfg : ConciliacionConfig) (hist : List HistPattern)
    (invs : List InvoiceRecord) (force : Bool) (ms : List MovimientoBancario)
    (h : NoDupClaims ms) :
    NoDupClaims (runConciliacion cfg hist invs force ms) := by
  unfold runConciliacion
  cases force with
  | false =>
      simp only [Bool.false_eq_true, if_false]
      apply runRecon_pairwise
      · intro m hm hconc u huuid
        apply List.mem_filterMap.mpr
        refine ⟨m, hm, ?_⟩
        rw [if_neg (by rw [hconc]; simp)]
        exact huuid
      · exact h
  | true =>
      simp only [if_true]
      apply runRecon_pairwise
      · intro m hm hconc u huuid
        exfalso
        obtain ⟨m0, hm0, hres⟩ := List.mem_map.mp hm
        rw [← hres] at hconc
        exact resetOne_not_conciliado m0 hconc
      · unfold NoDupClaims resetForReprocess
        rw [List.pairwise_map]
        apply pairwise_of_rel_total
        intro a b hconc
        exact absurd hconc (resetOne_not_conciliado a)

/-- C2 witness: a concrete run over a pending and a manual movement. -/
theorem claim_C2_witness :
    NoDupClaims [sampleMov, sampleManual] ∧
    NoDupClaims (runConciliacion sampleCfg [] [sampleInv] false
      [sampleMov, sampleManual]) :=
  ⟨by unfold NoDupClaims SinReclamoDoble; decide,
   claim_C2 sampleCfg [] [sampleInv] false [sampleMov, sampleManual]
     (by unfold NoDupClaims SinReclamoDoble; decide)⟩

/-- The run keeps the invariant that CONCILIADO movements carry both an
invoice reference and a match method. -/
theorem runRecon_conciliado_fields (cfg : ConciliacionConfig)
    (hist : List HistPattern) (invs : List InvoiceRecord) :
    ∀ (ms : List MovimientoBancario) (consumed : List String),
      (∀ m ∈ ms, m.estado = Estado.CONCILIADO →
        m.cfdi_uuid.isSome = true ∧ m.metodo_conciliacion.isSome = true) →
      ∀ m2 ∈ runRecon cfg hist invs ms consumed,
        m2.estado = Estado.CONCILIADO →
        m2.cfdi_uuid.isSome = true ∧ m2.metodo_conciliacion.isSome = true := by
  intro ms
  induction ms with
  | nil =>
      intro consumed hin m2 hm2
      simp [runRecon] at hm2
  | cons m ms ih =>
      intro consumed hin m2 hm2 hconc
      simp only [runRecon] at hm2
      rcases List.mem_cons.mp hm2 with heq | hm
      · by_cases hp : m.estado = Estado.PENDIENTE
        · cases hpipe : pipeline cfg hist m
              (invs.filter fun inv => !consumed.contains inv.uuid) with
          | accepted meth best =>
              rw [processMovement_eq_accepted hp hpipe] at heq
              have heq2 : m2 = applyAccept m meth best := heq
              rw [heq2]
              exact ⟨rfl, rfl⟩
          | pending sugg =>
              rw [processMovement_eq_pending hp hpipe] at heq
              have heq2 : m2 = m := heq
              rw [heq2, hp] at hconc
              exact absurd hconc (by decide)
        · rw [processMovement_eq_skip hp] at heq
          have heq2 : m2 = m := heq
          rw [heq2] at hconc ⊢
          exact hin m (List.mem_cons_self _ _) hconc
      · exact ih _ (fun m3 hm3 => hin m3 (List.mem_cons_of_mem _ hm3)) m2 hm hconc

/-- C6: the status type has exactly the three values PENDIENTE, CONCILIADO
and MANUAL; the record type allows an absent invoice reference and method on a
non-CONCILIADO movement; and after any run every CONCILIADO movement
carries exactly one invoice reference and one match method, provided the
input movements already did. -/
theorem claim_C6 (cfg : ConciliacionConfig) (hist : List HistPattern)
    (invs : List InvoiceRecord) (force : Bool) (ms : List MovimientoBancario)
    (h : ∀ m ∈ ms, m.estado = Estado.CONCILIADO →
      m.cfdi_uuid.isSome = true ∧ m.metodo_conciliacion.isSome = true) :
    (∀ s : Estado, s = Estado.PENDIENTE ∨ s = Estado.CONCILIADO ∨ s = Estado.MANUAL) ∧
    (∃ m : MovimientoBancario, m.estado = Estado.PENDIENTE ∧
      m.cfdi_uuid = none ∧ m.metodo_conciliacion = none) ∧
    ∀ m2 ∈ runConciliacion cfg hist invs force ms,
      m2.estado = Estado.CONCILIADO →
      m2.cfdi_uuid.isSome = true ∧ m2.metodo_conciliacion.isSome = true := by
  refine ⟨fun s => by cases s <;> simp, ⟨sampleMov, rfl, rfl, rfl⟩, ?_⟩
  unfold runConciliacion
  cases force with
  | false =>
      simp only [Bool.false_eq_true, if_false]
      exact runRecon_conciliado_fields cfg hist invs ms _ h
  | true =>
      simp only [if_true]
      apply runRecon_conciliado_fields
      intro m hm hconc
      exfalso
      obtain ⟨m0, hm0, hres⟩ := List.mem_map.mp hm
      rw [← hres] at hconc
      exact resetOne_not_conciliado m0 hconc

/-- C6 witness: a run over an already-reconciled movement. -/
theorem claim_C6_witness :
    (∀ m ∈ [sampleConc], m.estado = Estado.CONCILIADO →
      m.cfdi_uuid.isSome = true ∧ m.metodo_conciliacion.isSome = true) ∧
    ∀ m2 ∈ runConciliacion sampleCfg [] [sampleInv] false [sampleConc],
      m2.estado = Estado.CONCILIADO →
      m2.cfdi_uuid.isSome = true ∧ m2.metodo_conciliacion.isSome = true :=
  ⟨by decide,
   (claim_C6 sampleCfg [] [sampleInv] false [sampleConc] (by decide)).2.2⟩

/-- The run leaves non-PENDING movements in place, positionally. -/
theorem runRecon_get_nonpending (cfg : ConciliacionConfig)
    (hist : List HistPattern) (invs : List InvoiceRecord) :
    ∀ (ms : List MovimientoBancario) (consumed : List String) (i : Nat)
      (m0 : MovimientoBancario), ms[i]? = some m0 →
      m0.estado ≠ Estado.PENDIENTE →
      (runRecon cfg hist invs ms consumed)[i]? = some m0 := by
  intro ms
  induction ms with
  | nil =>
      intro consumed i m0 h
      simp at h
  | cons m ms ih =>
      intro consumed i m0 h hnp
      cases i with
      | zero =>
          simp only [List.getElem?_cons_zero] at h
          injection h with h
          subst h
          simp only [runRecon, List.getElem?_cons_zero]
          rw [processMovement_eq_skip hnp]
      | succ j =>
          simp only [List.getElem?_cons_succ] at h
          simp only [runRecon, List.getElem?_cons_succ]
          exact ih _ j m0 h hnp

/-- C4: the forced reset turns every CONCILIADO movement back to PENDING
with its automatic assignment cleared, leaves MANUAL (and PENDING)
movements untouched, happens before the strategies re-run, and the whole
forced run leaves each MANUAL movement exactly as it was. -/
theorem claim_C4 (cfg : ConciliacionConfig) (hist : List HistPattern)
    (invs : List InvoiceRecord) (ms : List MovimientoBancario) :
    (∀ m, m.estado = Estado.CONCILIADO →
      (resetOne m).estado = Estado.PENDIENTE ∧ (resetOne m).cfdi_uuid = none ∧
      (resetOne m).nivel_confianza = none ∧
      (resetOne m).metodo_conciliacion = none) ∧
    (∀ m, m.estado = Estado.MANUAL → resetOne m = m) ∧
    (∀ m, m.estado = Estado.PENDIENTE → resetOne m = m) ∧
    runConciliacion cfg hist invs true ms =
      runRecon cfg hist invs (resetForReprocess ms)
        (initialConsumed (resetForReprocess ms)) ∧
    (∀ (i : Nat) (m0 : MovimientoBancario), ms[i]? = some m0 →
      m0.estado = Estado.MANUAL →
      (runConciliacion cfg hist invs true ms)[i]? = some m0) := by
  have hman : ∀ m : MovimientoBancario, m.estado = Estado.MANUAL → resetOne m = m := by
    intro m h
    unfold resetOne
    rw [if_neg (by rw [h]; simp)]
  refine ⟨?_, hman, ?_, rfl, ?_⟩
  · intro m h
    unfold resetOne
    rw [if_pos h]
    exact ⟨rfl, rfl, rfl, rfl⟩
  · intro m h
    unfold resetOne
    rw [if_neg (by rw [h]; simp)]
  · intro i m0 hi hm
    have hmap : (resetForReprocess ms)[i]? = some m0 := by
      unfold resetForReprocess
      rw [List.getElem?_map, hi]
      simp only [Option.map_some']
      rw [hman m0 hm]
    exact runRecon_get_nonpending cfg hist invs _ _ i m0 hmap (by rw [hm]; simp)

/-- C4 witness: a forced run over a single MANUAL movement leaves it
untouched. -/
theorem claim_C4_witness :
    ([sampleManual] : List MovimientoBancario)[0]? = some sampleManual ∧
    sampleManual.estado = Estado.MANUAL ∧
    (runConciliacion sampleCfg [] [sampleInv] true [sampleManual])[0]? =
      some sampleManual := by
  obtain ⟨-, -, -, -, h⟩ := claim_C4 sampleCfg [] [sampleInv] [sampleManual]
  exact ⟨rfl, rfl, h 0 sampleManual rfl rfl⟩

/-- C3: the strategy order is the fixed six-element priority list, the
per-strategy thresholds are 0.95, 0.90, 0.80, 0.90, 0.85, 0.70 (in
hundredths: 95, 90, 80, 90, 85, 70), the
pipeline stops at the first strategy whose tie-break winner meets that
strategy's own threshold (recording it as matchMethod), and a movement no
strategy accepts stays PENDING with at most 3 retained suggestions. -/
theorem claim_C3 (cfg : ConciliacionConfig) (hist : List HistPattern)
    (m : MovimientoBancario) (invs : List InvoiceRecord)
    (consumed : List String) :
    strategyOrder = [Metodo.exact, Metodo.reference, Metodo.tolerance,
      Metodo.ppd, Metodo.heuristic, Metodo.historical] ∧
    stratThreshold Metodo.exact = 95 ∧
    stratThreshold Metodo.reference = 90 ∧
    stratThreshold Metodo.tolerance = 80 ∧
    stratThreshold Metodo.ppd = 90 ∧
    stratThreshold Metodo.heuristic = 85 ∧
    stratThreshold Metodo.historical = 70 ∧
    maxSuggestions = 3 ∧
    (∀ meth best, pipeline cfg hist m invs = MatchResult.accepted meth best →
      ∃ pre post, strategyOrder = pre ++ meth :: post ∧
        (∀ x ∈ pre, stratAccepts cfg hist x m invs = false) ∧
        pickBest (evalStrategy cfg hist meth m invs) = some best ∧
        stratThreshold meth ≤ best.confidence) ∧
    (∀ sugg, pipeline cfg hist m invs = MatchResult.pending sugg →
      (∀ x ∈ strategyOrder, stratAccepts cfg hist x m invs = false) ∧
      sugg.length ≤ maxSuggestions) ∧
    (∀ meth best, m.estado = Estado.PENDIENTE →
      pipeline cfg hist m (invs.filter fun inv => !consumed.contains inv.uuid) =
        MatchResult.accepted meth best →
      (processMovement cfg hist invs consumed m).1.estado = Estado.CONCILIADO ∧
      (processMovement cfg hist invs consumed m).1.metodo_conciliacion = some meth) ∧
    (∀ sugg, m.estado = Estado.PENDIENTE →
      pipeline cfg hist m (invs.filter fun inv => !consumed.contains inv.uuid) =
        MatchResult.pending sugg →
      (processMovement cfg hist invs consumed m).1 = m) := by
  refine ⟨rfl, rfl, rfl, rfl, rfl, rfl, rfl, rfl, ?_, ?_, ?_, ?_⟩
  · intro meth best h
    exact pipelineGo_accepted cfg hist m invs strategyOrder [] meth best h
  · intro sugg h
    exact pipelineGo_pending cfg hist m invs strategyOrder [] sugg h
  · intro meth best hp hpipe
    rw [processMovement_eq_accepted hp hpipe]
    exact ⟨rfl, rfl⟩
  · intro sugg hp hpipe
    rw [processMovement_eq_pending hp hpipe]

/-- C3 witness: the spec's Exact scenario is accepted by the first
strategy and recorded as the match method. -/
theorem claim_C3_witness :
    sampleMov.estado = Estado.PENDIENTE ∧
    pipeline sampleCfg [] sampleMov
        ([sampleInv].filter fun inv => !([] : List String).contains inv.uuid) =
      MatchResult.accepted Metodo.exact (mkCand sampleMov sampleInv 95) ∧
    (processMovement sampleCfg [] [sampleInv] [] sampleMov).1.estado =
      Estado.CONCILIADO ∧
    (processMovement sampleCfg [] [sampleInv] [] sampleMov).1.metodo_conciliacion =
      some Metodo.exact := by
  obtain ⟨-, -, -, -, -, -, -, -, -, -, hacc, -⟩ :=
    claim_C3 sampleCfg [] sampleMov [sampleInv] []
  have h1 : sampleMov.estado = Estado.PENDIENTE := rfl
  have h2 : pipeline sampleCfg [] sampleMov
      ([sampleInv].filter fun inv => !([] : List String).contains inv.uuid) =
      MatchResult.accepted Metodo.exact (mkCand sampleMov sampleInv 95) := by
    decide
  exact ⟨h1, h2, hacc Metodo.exact _ h1 h2⟩

/-- C5: the run is a deterministic function of its inputs — equal inputs
give an identical list of matches — and the four-level tie-break always
selects a member of the candidate list that no candidate beats, so tie
resolution is reproducible. -/
theorem claim_C5 (cfg : ConciliacionConfig) (hist : List HistPattern)
    (invs : List InvoiceRecord) (force : Bool)
    (ms1 ms2 : List MovimientoBancario) (h : ms1 = ms2) :
    runConciliacion cfg hist invs force ms1 =
      runConciliacion cfg hist invs force ms2 ∧
    (∀ m, pipeline cfg hist m invs = pipeline cfg hist m invs) ∧
    (∀ l c, pickBest l = some c → c ∈ l ∧ ∀ d ∈ l, d.beats c = false) :=
  ⟨by rw [h], fun _ => rfl, fun _ _ hc => pickBest_spec hc⟩

/-- C5 witness: determinism at a concrete input. -/
theorem claim_C5_witness :
    ([sampleMov] : List MovimientoBancario) = [sampleMov] ∧
    runConciliacion sampleCfg [] [sampleInv] false [sampleMov] =
      runConciliacion sampleCfg [] [sampleInv] false [sampleMov] :=
  ⟨rfl, (claim_C5 sampleCfg [] [sampleInv] false [sampleMov] [sampleMov] rfl).1⟩

/-- C8 as stated is false on the code: a truthy non-array `items` value is
passed straight through by `response.data.items || []`, so the result's
`movimientos` need not be an array for every shape of response data. -/
theorem claim_C8_counterexample :
    obtenerMovimientosMap (JsValue.obj [("items", JsValue.str "x")]) =
      some (JsValue.str "x", JsValue.num 0) ∧
    isArr (JsValue.str "x") = false :=
  ⟨rfl, rfl⟩

/-- C8 amended: over object response data whose `items` field, when
truthy, is an array and whose `total` field, when truthy, is a number, the
mapping returns the items array when present (and truthy), the empty array
otherwise, and the numeric total when present (and truthy), 0 otherwise —
the result then always holds a defined array and a defined number. -/
theorem claim_C8 (fields : List (String × JsValue))
    (hitems : ∀ v, fields.lookup "items" = some v → truthy v = true → isArr v = true)
    (htotal : ∀ v, fields.lookup "total" = some v → truthy v = true → isNum v = true) :
    ∃ mv tot, obtenerMovimientosMap (JsValue.obj fields) = some (mv, tot) ∧
      isArr mv = true ∧ isNum tot = true ∧
      (∀ v, fields.lookup "items" = some v → truthy v = true → mv = v) ∧
      (∀ v, fields.lookup "items" = some v → truthy v = false → mv = JsValue.arr []) ∧
      (fields.lookup "items" = none → mv = JsValue.arr []) ∧
      (∀ v, fields.lookup "total" = some v → truthy v = true → tot = v) ∧
      (∀ v, fields.lookup "total" = some v → truthy v = false → tot = JsValue.num 0) ∧
      (fields.lookup "total" = none → tot = JsValue.num 0) := by
  refine ⟨_, _, rfl, ?_, ?_, ?_, ?_, ?_, ?_, ?_, ?_⟩
  · cases hl : fields.lookup "items" with
    | none => rfl
    | some w =>
        show isArr (jsOr w (JsValue.arr [])) = true
        unfold jsOr
        by_cases ht : truthy w = true
        · rw [if_pos ht]
          exact hitems w hl ht
        · rw [if_neg ht]
          rfl
  · cases hl : fields.lookup "total" with
    | none => rfl
    | some w =>
        show isNum (jsOr w (JsValue.num 0)) = true
        unfold jsOr
        by_cases ht : truthy w = true
        · rw [if_pos ht]
          exact htotal w hl ht
        · rw [if_neg ht]
          rfl
  · intro v hv ht
    rw [hv]
    show jsOr v (JsValue.arr []) = v
    unfold jsOr
    rw [if_pos ht]
  · intro v hv ht
    rw [hv]
    show jsOr v (JsValue.arr []) = JsValue.arr []
    unfold jsOr
    rw [if_neg (by simp [ht])]
  · intro hv
    rw [hv]
    rfl
  · intro v hv ht
    rw [hv]
    show jsOr v (JsValue.num 0) = v
    unfold jsOr
    rw [if_pos ht]
  · intro v hv ht
    rw [hv]
    show jsOr v (JsValue.num 0) = JsValue.num 0
    unfold jsOr
    rw [if_neg (by simp [ht])]
  · intro hv
    rw [hv]
    rfl

/-- C8 witness: a well-shaped response with a one-element items array and
total 5 maps to exactly that array and total. -/
theorem claim_C8_witness :
    ∃ mv tot, obtenerMovimientosMap (JsValue.obj sampleRespFields) = some (mv, tot) ∧
      isArr mv = true ∧ isNum tot = true ∧
      (∀ v, sampleRespFields.lookup "items" = some v → truthy v = true → mv = v) ∧
      (∀ v, sampleRespFields.lookup "items" = some v → truthy v = false →
        mv = JsValue.arr []) ∧
      (sampleRespFields.lookup "items" = none → mv = JsValue.arr []) ∧
      (∀ v, sampleRespFields.lookup "total" = some v → truthy v = true → tot = v) ∧
      (∀ v, sampleRespFields.lookup "total" = some v → truthy v = false →
        tot = JsValue.num 0) ∧
      (sampleRespFields.lookup "total" = none → tot = JsValue.num 0) :=
  claim_C8 sampleRespFields
    (fun v hv _ => by injection hv with hv; rw [← hv]; rfl)
    (fun v hv _ => by injection hv with hv; rw [← hv]; rfl)

end Conciliacion
